import Mathlib

/-
Verification of the Kakoune option codec (src/option_types.hh).

Strings are modelled as lists of characters; in-place mutation of an option value
through a `T&` reference is modelled by passing the prior value in and returning the
value after the call, together with the error thrown, if any.  The helpers from
string.hh / hash_map.hh (escape, split, str_to_int, to_string, HashMap::insert) are
not part of the sources and are modelled from the spec, as indicated on each
definition.
-/

namespace KakOpt

/-- Strings are modelled as lists of characters. -/
abbrev Str := List Char

/-- Errors thrown by the option codecs; mirrors Kakoune's runtime_error carrying a
human-readable message. -/
inductive OptErr : Type where
  | runtime_error (msg : Str)
deriving DecidableEq

/-- Decidable equality for Except results, used to evaluate the codecs on concrete
inputs. -/
instance exceptDecEq {ε : Type} {α : Type} [DecidableEq ε] [DecidableEq α] :
    DecidableEq (Except ε α) := fun a b =>
  match a, b with
  | .ok x, .ok y =>
    if h : x = y then isTrue (by rw [h]) else isFalse (by intro hh; cases hh; exact h rfl)
  | .ok _, .error _ => isFalse (by intro hh; cases hh)
  | .error _, .ok _ => isFalse (by intro hh; cases hh)
  | .error x, .error y =>
    if h : x = y then isTrue (by rw [h]) else isFalse (by intro hh; cases hh; exact h rfl)

/-- Stateful decoder type: option_from_string(StringView, T&) mutates the destination
in place; we model it as a function from the input string and the prior value to the
value after the call paired with the error thrown, if any. -/
def FromString (α : Type u) : Type u := Str → α → α × Option OptErr

/-- Modelled from the spec: escape(input, sep, esc) returns input with every
occurrence of sep or esc prefixed by esc (string.hh is not part of src). -/
def escape (sep esc : Char) : Str → Str
  | [] => []
  | c :: rest =>
    if c = sep ∨ c = esc then esc :: c :: escape sep esc rest
    else c :: escape sep esc rest

/-- Helper used to prepend characters onto the first element produced by split. -/
def mapHead (f : Str → Str) : List Str → List Str
  | [] => []
  | x :: xs => f x :: xs

/-- Modelled from the spec: split(input, sep, esc) scans left to right, treating esc
immediately followed by any character as that literal character (the esc is
consumed) and every unescaped sep as a boundary; the empty string produces a single
empty element (string.hh is not part of src). -/
def split (sep esc : Char) : Str → List Str
  | [] => [[]]
  | c :: rest =>
    if c = esc then
      match rest with
      | [] => [[c]]
      | d :: rest2 => mapHead (fun e => d :: e) (split sep esc rest2)
    else if c = sep then [] :: split sep esc rest
    else mapHead (fun e => c :: e) (split sep esc rest)

/-- Character for a decimal digit value. -/
def digitChar (n : Nat) : Char := Char.ofNat (48 + n)

/-- Numeric value of a decimal digit character. -/
def charDigit (c : Char) : Nat := c.toNat - 48

/-- Modelled from the spec: decimal digits of a natural number, most significant
first (to_string from string.hh is not part of src). -/
def natDigitsAux (n : Nat) (acc : Str) : Str :=
  if n < 10 then digitChar n :: acc
  else natDigitsAux (n / 10) (digitChar (n % 10) :: acc)
termination_by n
decreasing_by exact Nat.div_lt_self (by omega) (by omega)

/-- Decimal digit string of a natural number. -/
def natDigits (n : Nat) : Str := natDigitsAux n []

/-- Value of a string of decimal digits. -/
def digitsToNat (ds : Str) : Nat := ds.foldl (fun a c => 10 * a + charDigit c) 0

/-- Modelled from the spec: str_to_int parses an optional minus sign followed by one
or more decimal digits and fails with a ParseError otherwise (string.hh is not part
of src; spec wire grammar for int is [-]digit+). -/
def str_to_int (s : Str) : Except OptErr Int :=
  if s.isEmpty then .error (.runtime_error "is not a number".toList)
  else if s.headD ' ' = '-' then
    if s.tail ≠ [] ∧ s.tail.all Char.isDigit then
      .ok (-(digitsToNat s.tail : Int))
    else .error (.runtime_error "is not a number".toList)
  else
    if s.all Char.isDigit then .ok ((digitsToNat s : Nat) : Int)
    else .error (.runtime_error "is not a number".toList)

/-- Modelled from the spec: to_string(int) formats in signed decimal. -/
def to_string_int (v : Int) : Str :=
  if v < 0 then '-' :: natDigits (-v).toNat else natDigits v.toNat

/-- Embedding of option_to_string(int). -/
def option_to_string_int (opt : Int) : Str := to_string_int opt

/-- Embedding of option_from_string(StringView, int&): assigns str_to_int(str); a
parse failure throws before the assignment, leaving the destination unchanged. -/
def option_from_string_int : FromString Int := fun s opt =>
  match str_to_int s with
  | .ok v => (v, none)
  | .error e => (opt, some e)

/-- Embedding of option_add(int&, StringView): parses the delta, adds it in place
and reports whether it was non-zero. -/
def option_add_int (opt : Int) (s : Str) : Int × Except OptErr Bool :=
  match str_to_int s with
  | .ok v => (opt + v, .ok (decide (v ≠ 0)))
  | .error e => (opt, .error e)

/-- Embedding of option_to_string(size_t). -/
def option_to_string_size (opt : Nat) : Str := natDigits opt

/-- Embedding of option_from_string(StringView, size_t&): the signed result of
str_to_int is assigned to the unsigned 64-bit size_t without any sign check, i.e.
converted modulo 2^64. -/
def option_from_string_size : FromString Nat := fun s opt =>
  match str_to_int s with
  | .ok v => ((v % (2 ^ 64 : Int)).toNat, none)
  | .error e => (opt, some e)

/-- Embedding of option_to_string(bool). -/
def option_to_string_bool (opt : Bool) : Str :=
  if opt then "true".toList else "false".toList

/-- Embedding of option_from_string(StringView, bool&). -/
def option_from_string_bool : FromString Bool := fun s opt =>
  if s = "true".toList ∨ s = "yes".toList then (true, none)
  else if s = "false".toList ∨ s = "no".toList then (false, none)
  else (opt, some (.runtime_error "boolean values are either true, yes, false or no".toList))

/-- Embedding of option_add(WorstMatch, StringView): the universal catch-all that
always throws; WorstMatch converts from any type, so overload resolution selects it
for every type that defines no own option_add overload. -/
def option_add_worst_match (_s : Str) : Except OptErr Bool :=
  .error (.runtime_error "no add operation supported for this option type".toList)

/-- Overload resolution for option_add on a bool option selects the WorstMatch
catch-all; the option is taken by value, so it is never modified. -/
def option_add_bool (opt : Bool) (s : Str) : Bool × Except OptErr Bool :=
  (opt, option_add_worst_match s)

/-- Loop of option_from_string(StringView, Vector<T>&) after the clear: each split
element is decoded into a default-constructed T and pushed; a failure propagates at
once, leaving exactly the elements pushed so far in the destination. -/
def vec_from_elems {α : Type} (d : FromString α) (dflt : α) :
    List Str → List α → List α × Option OptErr
  | [], acc => (acc, none)
  | e :: es, acc =>
    match d e dflt with
    | (v, none) => vec_from_elems d dflt es (acc ++ [v])
    | (_, some err) => (acc, some err)

/-- Embedding of option_to_string(Vector<T>): escaped elements joined by the list
separator, the empty vector giving the empty string. -/
def option_to_string_vector {α : Type} (enc : α → Str) : List α → Str
  | [] => []
  | [x] => escape ':' '\\' (enc x)
  | x :: y :: rest =>
    escape ':' '\\' (enc x) ++ (':' :: option_to_string_vector enc (y :: rest))

/-- Embedding of option_from_string(StringView, Vector<T>&): clears the destination,
splits on the list separator and decodes each element in order. -/
def option_from_string_vector {α : Type} (d : FromString α) (dflt : α) :
    FromString (List α) :=
  fun s _opt => vec_from_elems d dflt (split ':' '\\' s) []

/-- Embedding of option_add(Vector<T>&, StringView): decodes into a temporary vector,
appends its elements to the destination and reports whether it was non-empty; a
decode failure propagates before anything is appended. -/
def option_add_vector {α : Type} (d : FromString α) (dflt : α) (opt : List α)
    (s : Str) : List α × Except OptErr Bool :=
  match option_from_string_vector d dflt s [] with
  | (vec, none) => (opt ++ vec, .ok (!vec.isEmpty))
  | (_, some e) => (opt, .error e)

/-- Embedding of the entry string built by option_to_string(HashMap<K, V>): key and
value encodings escaped for the pair separator and joined by it. -/
def map_entry_to_string {κ ν : Type} (encK : κ → Str) (encV : ν → Str)
    (k : κ) (v : ν) : Str :=
  escape '=' '\\' (encK k) ++ ('=' :: escape '=' '\\' (encV v))

/-- Embedding of option_to_string(HashMap<K, V>): each entry string is escaped for
the list separator and the entries are joined by it, in iteration order. -/
def option_to_string_map {κ ν : Type} (encK : κ → Str) (encV : ν → Str) :
    List (κ × ν) → Str
  | [] => []
  | [p] => escape ':' '\\' (map_entry_to_string encK encV p.1 p.2)
  | p :: q :: rest =>
    escape ':' '\\' (map_entry_to_string encK encV p.1 p.2) ++
      (':' :: option_to_string_map encK encV (q :: rest))

/-- Modelled from the spec: HashMap::insert stores the pair, overwriting any
existing entry with the same key; iteration follows insertion order (hash_map.hh is
not part of src). The map is modelled as an insertion-ordered association list. -/
def mapInsert {κ ν : Type} [DecidableEq κ] : List (κ × ν) → κ → ν → List (κ × ν)
  | [], k, v => [(k, v)]
  | p :: rest, k, v => if p.1 = k then (k, v) :: rest else p :: mapInsert rest k v

/-- Loop of option_from_string(StringView, HashMap<K, V>&) after the clear: each
split entry must split on the pair separator into exactly two parts, the key and
value are decoded and the pair is inserted; a failure propagates at once, leaving
exactly the entries inserted so far. -/
def map_from_elems {κ ν : Type} [DecidableEq κ] (dK : FromString κ) (dfK : κ)
    (dV : FromString ν) (dfV : ν) :
    List Str → List (κ × ν) → List (κ × ν) × Option OptErr
  | [], acc => (acc, none)
  | e :: es, acc =>
    match split '=' '\\' e with
    | [ks, vs] =>
      match dK ks dfK with
      | (k, none) =>
        match dV vs dfV with
        | (v, none) => map_from_elems dK dfK dV dfV es (mapInsert acc k v)
        | (_, some err) => (acc, some err)
      | (_, some err) => (acc, some err)
    | _ => (acc, some (.runtime_error "map option expects key=value".toList))

/-- Embedding of option_from_string(StringView, HashMap<K, V>&): clears the
destination, splits on the list separator and processes each entry in order. -/
def option_from_string_map {κ ν : Type} [DecidableEq κ] (dK : FromString κ)
    (dfK : κ) (dV : FromString ν) (dfV : ν) : FromString (List (κ × ν)) :=
  fun s _opt => map_from_elems dK dfK dV dfV (split ':' '\\' s) []

/-- Heterogeneous list indexed by the list of field types; embeds std::tuple. -/
inductive HList : List Type → Type 1 where
  | nil : HList []
  | cons {α : Type} {ts : List Type} : α → HList ts → HList (α :: ts)

/-- Per-field stateful decoders for a tuple type. -/
def FromStrings : List Type → Type 1
  | [] => PUnit
  | α :: ts => FromString α × FromStrings ts

/-- Per-field encoders for a tuple type. -/
def ToStrings : List Type → Type 1
  | [] => PUnit
  | α :: ts => (α → Str) × ToStrings ts

/-- Embedding of the recursive case of TupleOptionDetail<I>::to_string: every field
after the first is preceded by the tuple separator and escaped. -/
def tuple_to_string_rest : {ts : List Type} → ToStrings ts → HList ts → Str
  | [], _, _ => []
  | _ :: _, es, HList.cons v vs =>
    '|' :: (escape '|' '\\' (es.1 v) ++ tuple_to_string_rest es.2 vs)

/-- Embedding of option_to_string(std::tuple<Types...>): note the source's base case
TupleOptionDetail<0>::to_string emits field 0 without escaping it. -/
def tuple_to_string : {ts : List Type} → ToStrings ts → HList ts → Str
  | [], _, _ => []
  | _ :: _, es, HList.cons v vs => es.1 v ++ tuple_to_string_rest es.2 vs

/-- Embedding of TupleOptionDetail<I>::from_string: the source decodes field I from
elems[I] and then recurses downward to field 0, so the last field is decoded first;
we realize the same order by recursing on the tail before decoding the head, each
field being mutated in place. -/
def tuple_from_elems : {ts : List Type} → FromStrings ts → List Str → HList ts →
    HList ts × Option OptErr
  | [], _, _, h => (h, none)
  | _ :: _, ds, elems, HList.cons v vs =>
    match tuple_from_elems ds.2 elems.tail vs with
    | (vs', some e) => (HList.cons v vs', some e)
    | (vs', none) =>
      match ds.1 (elems.headD []) v with
      | (v', err) => (HList.cons v' vs', err)

/-- Embedding of option_from_string(StringView, std::tuple<Types...>&): splits on
the tuple separator, rejects a wrong element count before touching any field, and
otherwise decodes the fields. -/
def tuple_from_string {ts : List Type} (ds : FromStrings ts) : FromString (HList ts) :=
  fun s opt =>
    let elems := split '|' '\\' s
    if elems.length ≠ ts.length then
      (opt, some (.runtime_error (if elems.length < ts.length then
        "not enough elements in tuple".toList
      else "to many elements in tuple".toList)))
    else tuple_from_elems ds elems opt

/-- Embedding of the PrefixedList<P, T> struct; the C++ field name is a Lean
keyword, so the marker field is called pfx here. -/
structure PrefixedList (P : Type) (α : Type) : Type where
  pfx : P
  list : List α

/-- Embedding of find(str, ':') from the PrefixedList decoder: the first occurrence
of the character, with the substrings before and after it; none when absent.  Note
this is a plain character search with no escape handling. -/
def findChar (t : Char) : Str → Option (Str × Str)
  | [] => none
  | c :: rest =>
    if c = t then some ([], rest)
    else
      match findChar t rest with
      | none => none
      | some (b, a) => some (c :: b, a)

/-- Modelled from the spec: the first unescaped occurrence of sep (an esc consumes
the following character), with the raw substrings before and after it.  Used only to
state what the spec asks of the PrefixedList decoder. -/
def findUnescaped (sep esc : Char) : Str → Option (Str × Str)
  | [] => none
  | c :: rest =>
    if c = esc then
      match rest with
      | [] => none
      | d :: rest2 =>
        match findUnescaped sep esc rest2 with
        | none => none
        | some (b, a) => some (c :: d :: b, a)
    else if c = sep then some ([], rest)
    else
      match findUnescaped sep esc rest with
      | none => none
      | some (b, a) => some (c :: b, a)

/-- Embedding of option_to_string(PrefixedList<P, T>): format of the marker, a
colon, then the list encoding; the marker's encoding is not escaped. -/
def option_to_string_plist {P α : Type} (encP : P → Str) (encT : α → Str)
    (opt : PrefixedList P α) : Str :=
  encP opt.pfx ++ (':' :: option_to_string_vector encT opt.list)

/-- Embedding of option_from_string(StringView, PrefixedList<P, T>&): find the first
colon, decode the part before it into the marker, and, only when a colon was found,
decode the part after it into the list; without a colon the list is untouched. -/
def option_from_string_plist {P α : Type} (dP : FromString P) (dT : FromString α)
    (dfT : α) : FromString (PrefixedList P α) :=
  fun s opt =>
    match findChar ':' s with
    | none =>
      match dP s opt.pfx with
      | (p, err) => (⟨p, opt.list⟩, err)
    | some (b, a) =>
      match dP b opt.pfx with
      | (p, none) =>
        match option_from_string_vector dT dfT a opt.list with
        | (l, err) => (⟨p, l⟩, err)
      | (p, some e) => (⟨p, opt.list⟩, some e)

/-- Embedding of option_add(PrefixedList<P, T>&, StringView): delegates to the list
member's add. -/
def option_add_plist {P α : Type} (dT : FromString α) (dfT : α)
    (opt : PrefixedList P α) (s : Str) : PrefixedList P α × Except OptErr Bool :=
  match option_add_vector dT dfT opt.list s with
  | (l, r) => (⟨opt.pfx, l⟩, r)

/-- Test marker codec used to observe which substring reaches the marker decoder:
it stores the raw substring, mirroring Kakoune's String option codec, which copies
the input verbatim (string.hh is not part of src). -/
def option_from_string_str : FromString Str := fun s _opt => (s, none)

/-- Field decoders for an (int, bool) tuple option. -/
def ds_int_bool : FromStrings [Int, Bool] :=
  (option_from_string_int, (option_from_string_bool, PUnit.unit))

/-- Field encoders for an (int, bool) tuple option. -/
def es_int_bool : ToStrings [Int, Bool] :=
  (option_to_string_int, (option_to_string_bool, PUnit.unit))


/-- Helper lemma: mapHead composed. -/
theorem mapHead_mapHead (f g : Str → Str) (l : List Str) :
    mapHead f (mapHead g l) = mapHead (fun e => f (g e)) l := by
  cases l <;> simp [mapHead]

/-- Helper lemma: split on a string starting with the separator. -/
theorem split_cons_sep (sep esc : Char) (hne : sep ≠ esc) (t : Str) :
    split sep esc (sep :: t) = [] :: split sep esc t := by
  rw [split.eq_def]
  simp [hne]

/-- Helper lemma: split on a string that is just the escape character. -/
theorem split_cons_esc_nil (sep esc : Char) :
    split sep esc [esc] = [[esc]] := by
  rw [split.eq_def]
  simp

/-- Helper lemma: split on a string starting with the escape character consumes it
and treats the following character literally. -/
theorem split_cons_esc (sep esc d : Char) (r : Str) :
    split sep esc (esc :: d :: r) = mapHead (fun e => d :: e) (split sep esc r) := by
  rw [split.eq_def]
  simp

/-- Helper lemma: split on a string starting with an ordinary character prepends it
to the first element. -/
theorem split_cons_other (sep esc c : Char) (r : Str) (h1 : c ≠ esc) (h2 : c ≠ sep) :
    split sep esc (c :: r) = mapHead (fun e => c :: e) (split sep esc r) := by
  rw [split.eq_def]
  simp [h1, h2]

/-- Helper lemma: split of an escaped string followed by a separator and a tail
recovers the original string as the first element. -/
theorem split_escape_append (sep esc : Char) (hne : sep ≠ esc) (x t : Str) :
    split sep esc (escape sep esc x ++ (sep :: t)) = x :: split sep esc t := by
  induction x with
  | nil =>
    simp only [escape, List.nil_append]
    exact split_cons_sep sep esc hne t
  | cons c cs ih =>
    by_cases h : c = sep ∨ c = esc
    · rw [escape, if_pos h, List.cons_append, List.cons_append, split_cons_esc, ih]
      simp [mapHead]
    · push_neg at h
      rw [escape, if_neg (by tauto : ¬(c = sep ∨ c = esc)), List.cons_append,
        split_cons_other sep esc c _ h.2 h.1, ih]
      simp [mapHead]

/-- Helper lemma: split of an escaped string alone recovers it as the only
element. -/
theorem split_escape (sep esc : Char) (x : Str) :
    split sep esc (escape sep esc x) = [x] := by
  induction x with
  | nil => rfl
  | cons c cs ih =>
    by_cases h : c = sep ∨ c = esc
    · rw [escape, if_pos h, split_cons_esc, ih]
      simp [mapHead]
    · push_neg at h
      rw [escape, if_neg (by tauto : ¬(c = sep ∨ c = esc)),
        split_cons_other sep esc c _ h.2 h.1, ih]
      simp [mapHead]

/-- Helper lemma: split over a string starting with characters that are neither the
separator nor the escape prepends them onto the first produced element. -/
theorem split_clean_append (sep esc : Char) (x r : Str)
    (hx : ∀ c ∈ x, c ≠ sep ∧ c ≠ esc) :
    split sep esc (x ++ r) = mapHead (fun e => x ++ e) (split sep esc r) := by
  induction x with
  | nil =>
    cases h : split sep esc r <;> simp [mapHead, h]
  | cons c cs ih =>
    have hc := hx c (by simp)
    rw [List.cons_append, split_cons_other sep esc c _ hc.2 hc.1,
      ih (fun d hd => hx d (by simp [hd])), mapHead_mapHead]
    rfl

/-- Helper lemma: split at a separator preceded by clean characters. -/
theorem split_clean_sep (sep esc : Char) (hne : sep ≠ esc) (x t : Str)
    (hx : ∀ c ∈ x, c ≠ sep ∧ c ≠ esc) :
    split sep esc (x ++ (sep :: t)) = x :: split sep esc t := by
  rw [split_clean_append sep esc x _ hx, split_cons_sep sep esc hne t]
  simp [mapHead]

/-- Helper lemma: a clean string splits into itself alone. -/
theorem split_clean (sep esc : Char) (x : Str)
    (hx : ∀ c ∈ x, c ≠ sep ∧ c ≠ esc) :
    split sep esc x = [x] := by
  have := split_clean_append sep esc x [] hx
  simpa [split, mapHead] using this

/-- Helper lemma: digit characters are digits. -/
theorem digitChar_isDigit (d : Nat) (h : d < 10) : (digitChar d).isDigit = true := by
  interval_cases d <;> decide

/-- Helper lemma: value of a digit character. -/
theorem charDigit_digitChar (d : Nat) (h : d < 10) : charDigit (digitChar d) = d := by
  interval_cases d <;> decide

/-- Helper lemma: unfolding natDigitsAux on a single digit. -/
theorem natDigitsAux_lt (n : Nat) (acc : Str) (h : n < 10) :
    natDigitsAux n acc = digitChar n :: acc := by
  rw [natDigitsAux, if_pos h]

/-- Helper lemma: unfolding natDigitsAux on a multi-digit number. -/
theorem natDigitsAux_ge (n : Nat) (acc : Str) (h : ¬n < 10) :
    natDigitsAux n acc = natDigitsAux (n / 10) (digitChar (n % 10) :: acc) := by
  conv_lhs => rw [natDigitsAux]
  rw [if_neg h]

/-- Helper lemma: the accumulator of natDigitsAux is a suffix. -/
theorem natDigitsAux_append (n : Nat) (acc : Str) :
    natDigitsAux n acc = natDigits n ++ acc := by
  induction n using Nat.strong_induction_on generalizing acc with
  | _ n ih =>
    by_cases h : n < 10
    · rw [natDigitsAux_lt n acc h, natDigits, natDigitsAux_lt n [] h]
      rfl
    · have hd : n / 10 < n := Nat.div_lt_self (by omega) (by omega)
      rw [natDigitsAux_ge n acc h, ih (n / 10) hd]
      conv_rhs => rw [natDigits, natDigitsAux_ge n [] h, ih (n / 10) hd]
      simp

/-- Helper lemma: every character of natDigits is a digit. -/
theorem natDigits_all_isDigit (n : Nat) : ∀ c ∈ natDigits n, c.isDigit = true := by
  induction n using Nat.strong_induction_on with
  | _ n ih =>
    by_cases h : n < 10
    · rw [natDigits, natDigitsAux_lt n [] h]
      intro c hc
      simp at hc
      subst hc
      exact digitChar_isDigit n h
    · rw [natDigits, natDigitsAux_ge n [] h, natDigitsAux_append]
      intro c hc
      rcases List.mem_append.1 hc with h1 | h2
      · exact ih (n / 10) (Nat.div_lt_self (by omega) (by omega)) c h1
      · simp at h2
        subst h2
        exact digitChar_isDigit _ (Nat.mod_lt _ (by omega))

/-- Helper lemma: natDigits is never empty. -/
theorem natDigits_ne_nil (n : Nat) : natDigits n ≠ [] := by
  rw [natDigits]
  by_cases h : n < 10
  · rw [natDigitsAux_lt n [] h]
    simp
  · rw [natDigitsAux_ge n [] h, natDigitsAux_append]
    simp

/-- Helper lemma: parsing the digits of n gives back n. -/
theorem digitsToNat_natDigits (n : Nat) : digitsToNat (natDigits n) = n := by
  induction n using Nat.strong_induction_on with
  | _ n ih =>
    by_cases h : n < 10
    · rw [natDigits, natDigitsAux_lt n [] h, digitsToNat]
      simp [charDigit_digitChar n h]
    · rw [natDigits, natDigitsAux_ge n [] h, natDigitsAux_append, digitsToNat,
        List.foldl_append]
      have h1 : List.foldl (fun a c => 10 * a + charDigit c) 0 (natDigits (n / 10)) = n / 10 := by
        have := ih (n / 10) (Nat.div_lt_self (by omega) (by omega))
        rwa [digitsToNat] at this
      rw [h1]
      simp [charDigit_digitChar _ (Nat.mod_lt n (by omega))]
      omega

/-- Helper lemma: str_to_int accepts any non-empty all-digit string. -/
theorem str_to_int_digits (s : Str) (hne : s ≠ []) (hdig : ∀ c ∈ s, c.isDigit = true) :
    str_to_int s = .ok ((digitsToNat s : Nat) : Int) := by
  obtain ⟨c, cs, rfl⟩ := List.exists_cons_of_ne_nil hne
  have hcd : c.isDigit = true := hdig c (List.mem_cons_self c cs)
  have hcm : ¬(c = '-') := by
    intro h
    rw [h] at hcd
    exact absurd hcd (by decide)
  rw [str_to_int, if_neg (by simp), if_neg (by simpa using hcm),
    if_pos (List.all_eq_true.2 hdig)]

/-- Helper lemma: str_to_int on a minus sign followed by digits. -/
theorem str_to_int_neg_digits (s : Str) (hne : s ≠ [])
    (hdig : ∀ c ∈ s, c.isDigit = true) :
    str_to_int ('-' :: s) = .ok (-(digitsToNat s : Int)) := by
  rw [str_to_int, if_neg (by simp), if_pos (by simp),
    if_pos (⟨by simpa using hne, by simpa using List.all_eq_true.2 hdig⟩ :
      ('-' :: s).tail ≠ [] ∧ ('-' :: s).tail.all Char.isDigit)]
  rfl

/-- Helper lemma: str_to_int parses back the digits of a natural number. -/
theorem str_to_int_natDigits (n : Nat) : str_to_int (natDigits n) = .ok ((n : Int)) := by
  rw [str_to_int_digits _ (natDigits_ne_nil n) (natDigits_all_isDigit n),
    digitsToNat_natDigits]

/-- Helper lemma: str_to_int inverts to_string_int. -/
theorem str_to_int_to_string_int (v : Int) : str_to_int (to_string_int v) = .ok v := by
  rw [to_string_int]
  by_cases h : v < 0
  · rw [if_pos h, str_to_int_neg_digits _ (natDigits_ne_nil _) (natDigits_all_isDigit _),
      digitsToNat_natDigits]
    have hv : (((-v).toNat : Int)) = -v := Int.toNat_of_nonneg (by omega)
    rw [hv, neg_neg]
  · rw [if_neg h, str_to_int_natDigits]
    congr 1
    exact Int.toNat_of_nonneg (by omega)

/-- Helper lemma: decoding the encoding of an int from any prior state yields the
int with no error. -/
theorem int_roundtrip (v w : Int) :
    option_from_string_int (option_to_string_int v) w = (v, none) := by
  simp only [option_from_string_int, option_to_string_int, str_to_int_to_string_int]

/-- Helper lemma: decoding the encoding of a bool from any prior state yields the
bool with no error. -/
theorem bool_roundtrip (b w : Bool) :
    option_from_string_bool (option_to_string_bool b) w = (b, none) := by
  cases b <;> rfl

/-- Helper lemma: decoding the encoding of a size below 2^64 from any prior state
yields it back with no error. -/
theorem size_roundtrip (p w : Nat) (hp : p < 2 ^ 64) :
    option_from_string_size (option_to_string_size p) w = (p, none) := by
  simp only [option_from_string_size, option_to_string_size, str_to_int_natDigits]
  rw [Int.emod_eq_of_lt (by omega) (by exact_mod_cast hp)]
  simp

/-- Helper lemma: every character of to_string_int is a minus sign or a digit. -/
theorem to_string_int_chars (v : Int) :
    ∀ c ∈ to_string_int v, c = '-' ∨ c.isDigit = true := by
  rw [to_string_int]
  by_cases h : v < 0
  · rw [if_pos h]
    intro c hc
    rcases List.mem_cons.1 hc with h1 | h2
    · exact Or.inl h1
    · exact Or.inr (natDigits_all_isDigit _ c h2)
  · rw [if_neg h]
    intro c hc
    exact Or.inr (natDigits_all_isDigit _ c hc)

/-- Helper lemma: the int encoding avoids any character that is neither a digit nor
the minus sign. -/
theorem to_string_int_clean (v : Int) (sep esc : Char)
    (hs1 : sep.isDigit = false) (hs2 : sep ≠ '-')
    (he1 : esc.isDigit = false) (he2 : esc ≠ '-') :
    ∀ c ∈ to_string_int v, c ≠ sep ∧ c ≠ esc := by
  intro c hc
  rcases to_string_int_chars v c hc with h | h
  · subst h
    exact ⟨fun hh => hs2 hh.symm, fun hh => he2 hh.symm⟩
  · constructor
    · intro hh
      rw [hh] at h
      rw [h] at hs1
      cases hs1
    · intro hh
      rw [hh] at h
      rw [h] at he1
      cases he1

/-- Helper lemma: the size encoding is all digits, hence clean. -/
theorem option_to_string_size_clean (p : Nat) (sep esc : Char)
    (hs1 : sep.isDigit = false) (he1 : esc.isDigit = false) :
    ∀ c ∈ option_to_string_size p, c ≠ sep ∧ c ≠ esc := by
  intro c hc
  have h := natDigits_all_isDigit p c hc
  constructor
  · intro hh
    rw [hh] at h
    rw [h] at hs1
    cases hs1
  · intro hh
    rw [hh] at h
    rw [h] at he1
    cases he1

/-- Helper lemma: split recovers the escaped elements of a non-empty encoded
vector. -/
theorem split_to_string_vector {α : Type} (enc : α → Str) (x : α) (xs : List α) :
    split ':' '\\' (option_to_string_vector enc (x :: xs)) = (x :: xs).map enc := by
  induction xs generalizing x with
  | nil =>
    rw [option_to_string_vector, split_escape]
    rfl
  | cons y ys ih =>
    rw [option_to_string_vector, split_escape_append _ _ (by decide), ih y]
    rfl

/-- Helper lemma: the decode loop of a vector appends every element whose decode
round-trips. -/
theorem vec_from_elems_roundtrip {α : Type} (d : FromString α) (dflt : α)
    (enc : α → Str) (l : List α) (hd : ∀ x ∈ l, d (enc x) dflt = (x, none))
    (acc : List α) :
    vec_from_elems d dflt (l.map enc) acc = (acc ++ l, none) := by
  induction l generalizing acc with
  | nil => simp [vec_from_elems]
  | cons x xs ih =>
    simp only [List.map_cons, vec_from_elems, hd x (by simp)]
    rw [ih (fun y hy => hd y (by simp [hy])) (acc ++ [x])]
    simp

/-- Helper lemma: decoding the encoding of a non-empty vector from any prior state
yields the vector with no error, given element round-trip. -/
theorem vector_roundtrip {α : Type} (d : FromString α) (dflt : α) (enc : α → Str)
    (l : List α) (hl : l ≠ []) (hd : ∀ x ∈ l, d (enc x) dflt = (x, none))
    (init : List α) :
    option_from_string_vector d dflt (option_to_string_vector enc l) init = (l, none) := by
  obtain ⟨x, xs, rfl⟩ := List.exists_cons_of_ne_nil hl
  rw [option_from_string_vector]
  rw [split_to_string_vector enc x xs]
  simpa using vec_from_elems_roundtrip d dflt enc (x :: xs) hd []

/-- Helper lemma: split recovers the escaped entry strings of a non-empty encoded
map. -/
theorem split_to_string_map {κ ν : Type} (encK : κ → Str) (encV : ν → Str)
    (p : κ × ν) (ps : List (κ × ν)) :
    split ':' '\\' (option_to_string_map encK encV (p :: ps)) =
      (p :: ps).map (fun q => map_entry_to_string encK encV q.1 q.2) := by
  induction ps generalizing p with
  | nil =>
    rw [option_to_string_map, split_escape]
    rfl
  | cons q qs ih =>
    rw [option_to_string_map, split_escape_append _ _ (by decide), ih q]
    rfl

/-- Helper lemma: an encoded map entry splits into exactly the encoded key and
value. -/
theorem split_map_entry {κ ν : Type} (encK : κ → Str) (encV : ν → Str) (k : κ) (v : ν) :
    split '=' '\\' (map_entry_to_string encK encV k v) = [encK k, encV v] := by
  rw [map_entry_to_string, split_escape_append _ _ (by decide), split_escape]

/-- Helper lemma: inserting a fresh key appends the pair. -/
theorem mapInsert_not_mem {κ ν : Type} [DecidableEq κ] (m : List (κ × ν)) (k : κ)
    (v : ν) (h : k ∉ m.map Prod.fst) : mapInsert m k v = m ++ [(k, v)] := by
  induction m with
  | nil => rfl
  | cons p rest ih =>
    simp only [List.map_cons, List.mem_cons] at h
    push_neg at h
    rw [mapInsert, if_neg (fun hh => h.1 hh.symm), ih h.2]
    simp

/-- Helper lemma: the decode loop of a map inserts every entry whose key and value
decodes round-trip, appending when all keys are fresh. -/
theorem map_from_elems_roundtrip {κ ν : Type} [DecidableEq κ] (dK : FromString κ)
    (dfK : κ) (dV : FromString ν) (dfV : ν) (encK : κ → Str) (encV : ν → Str)
    (m : List (κ × ν)) (hK : ∀ p ∈ m, dK (encK p.1) dfK = (p.1, none))
    (hV : ∀ p ∈ m, dV (encV p.2) dfV = (p.2, none))
    (hnd : (m.map Prod.fst).Nodup) (acc : List (κ × ν))
    (hdisj : ∀ p ∈ m, p.1 ∉ acc.map Prod.fst) :
    map_from_elems dK dfK dV dfV
      (m.map fun q => map_entry_to_string encK encV q.1 q.2) acc = (acc ++ m, none) := by
  induction m generalizing acc with
  | nil => simp [map_from_elems]
  | cons p ps ih =>
    simp only [List.map_cons, map_from_elems, split_map_entry,
      hK p (List.mem_cons_self p ps), hV p (List.mem_cons_self p ps)]
    rw [mapInsert_not_mem acc p.1 p.2 (hdisj p (List.mem_cons_self p ps))]
    rw [List.map_cons, List.nodup_cons] at hnd
    rw [ih (fun q hq => hK q (List.mem_cons_of_mem p hq))
      (fun q hq => hV q (List.mem_cons_of_mem p hq)) hnd.2 (acc ++ [(p.1, p.2)])
      (by
        intro q hq
        simp only [List.map_append, List.mem_append]
        push_neg
        refine ⟨hdisj q (List.mem_cons_of_mem p hq), ?_⟩
        simp only [List.map_cons, List.map_nil, List.mem_singleton]
        intro hh
        have hq1 : q.1 ∈ List.map Prod.fst ps := List.mem_map_of_mem Prod.fst hq
        rw [hh] at hq1
        exact hnd.1 hq1)]
    simp

/-- Helper lemma: decoding the encoding of a non-empty map with distinct keys from
any prior state yields exactly the same entries, in order, with no error. -/
theorem map_roundtrip {κ ν : Type} [DecidableEq κ] (dK : FromString κ) (dfK : κ)
    (dV : FromString ν) (dfV : ν) (encK : κ → Str) (encV : ν → Str)
    (m : List (κ × ν)) (hm : m ≠ [])
    (hK : ∀ p ∈ m, dK (encK p.1) dfK = (p.1, none))
    (hV : ∀ p ∈ m, dV (encV p.2) dfV = (p.2, none))
    (hnd : (m.map Prod.fst).Nodup) (init : List (κ × ν)) :
    option_from_string_map dK dfK dV dfV (option_to_string_map encK encV m) init =
      (m, none) := by
  obtain ⟨p, ps, rfl⟩ := List.exists_cons_of_ne_nil hm
  rw [option_from_string_map]
  rw [split_to_string_map encK encV p ps]
  simpa using map_from_elems_roundtrip dK dfK dV dfV encK encV (p :: ps) hK hV hnd []
    (by simp)

/-- Helper lemma: the int option encoding avoids non-digit, non-minus characters. -/
theorem option_to_string_int_clean (v : Int) (sep esc : Char)
    (hs1 : sep.isDigit = false) (hs2 : sep ≠ '-')
    (he1 : esc.isDigit = false) (he2 : esc ≠ '-') :
    ∀ c ∈ option_to_string_int v, c ≠ sep ∧ c ≠ esc :=
  to_string_int_clean v sep esc hs1 hs2 he1 he2

/-- Helper lemma: the encoded (int, bool) tuple splits into the two encoded
fields. -/
theorem split_tuple_int_bool (i : Int) (b : Bool) :
    split '|' '\\' (tuple_to_string es_int_bool (HList.cons i (HList.cons b HList.nil))) =
      [option_to_string_int i, option_to_string_bool b] := by
  rw [tuple_to_string]
  show split '|' '\\' (option_to_string_int i ++
    ('|' :: (escape '|' '\\' (option_to_string_bool b) ++ []))) = _
  rw [List.append_nil]
  rw [split_clean_sep _ _ (by decide) _ _
    (option_to_string_int_clean i '|' '\\' (by decide) (by decide) (by decide) (by decide))]
  rw [split_escape]

/-- Helper lemma: decoding the encoding of an (int, bool) tuple from any prior state
yields the tuple with no error. -/
theorem tuple_int_bool_roundtrip (i : Int) (b : Bool) (w : HList [Int, Bool]) :
    tuple_from_string ds_int_bool
      (tuple_to_string es_int_bool (HList.cons i (HList.cons b HList.nil))) w =
      (HList.cons i (HList.cons b HList.nil), none) := by
  rw [tuple_from_string]
  simp only [split_tuple_int_bool i b]
  rw [if_neg (by simp)]
  cases w with
  | cons v vs =>
    cases vs with
    | cons v2 vs2 =>
      cases vs2 with
      | nil =>
        simp only [tuple_from_elems, ds_int_bool, List.tail_cons, List.headD_cons,
          bool_roundtrip, int_roundtrip]

/-- Helper lemma: findChar on a clean part followed by the character. -/
theorem findChar_clean_append (t : Char) (x r : Str) (hx : ∀ c ∈ x, c ≠ t) :
    findChar t (x ++ (t :: r)) = some (x, r) := by
  induction x with
  | nil =>
    rw [List.nil_append, findChar, if_pos rfl]
  | cons c cs ih =>
    rw [List.cons_append, findChar, if_neg (hx c (by simp)),
      ih (fun d hd => hx d (by simp [hd]))]

/-- Helper lemma: decoding the encoding of a size-marked int list (a
TimestampedList) with marker below 2^64 and a non-empty list yields it back with no
error, from any prior state. -/
theorem plist_roundtrip (p : Nat) (l : List Int) (hp : p < 2 ^ 64) (hl : l ≠ [])
    (init : PrefixedList Nat Int) :
    option_from_string_plist option_from_string_size option_from_string_int 0
      (option_to_string_plist option_to_string_size option_to_string_int ⟨p, l⟩) init =
      (⟨p, l⟩, none) := by
  have h1 : findChar ':' (option_to_string_size p ++
      (':' :: option_to_string_vector option_to_string_int l)) =
      some (option_to_string_size p, option_to_string_vector option_to_string_int l) :=
    findChar_clean_append ':' _ _
      (fun c hc => (option_to_string_size_clean p ':' ':' (by decide) (by decide) c hc).1)
  simp only [option_to_string_plist, option_from_string_plist, h1,
    size_roundtrip p init.pfx hp,
    vector_roundtrip option_from_string_int 0 option_to_string_int l hl
      (fun x _ => int_roundtrip x 0) init.list]

/-- C1 counterexample: decoding the encoding of the empty int list does not yield
the empty list back without error: the empty string splits into one empty element,
whose int decode fails. -/
theorem C1_round_trip_counterexample :
    option_from_string_vector option_from_string_int 0
      (option_to_string_vector option_to_string_int ([] : List Int)) [] ≠ ([], none) := by
  decide

/-- C1 (amended): decode(encode(v)) is equal in content to v for supported scalar,
list, map, tuple and prefixed-list values, provided every list or map occurring in
v is non-empty (the encoding of an empty list or map is the empty string, which
splits into a single empty element and fails to decode); sizes round-trip below
2^64 and map keys are distinct, as the map container guarantees. -/
theorem C1_round_trip_amended :
    (∀ (v w : Int), option_from_string_int (option_to_string_int v) w = (v, none)) ∧
    (∀ (b w : Bool), option_from_string_bool (option_to_string_bool b) w = (b, none)) ∧
    (∀ (p w : Nat), p < 2 ^ 64 →
      option_from_string_size (option_to_string_size p) w = (p, none)) ∧
    (∀ (l : List Int) (init : List Int), l ≠ [] →
      option_from_string_vector option_from_string_int 0
        (option_to_string_vector option_to_string_int l) init = (l, none)) ∧
    (∀ (m : List (Int × Int)) (init : List (Int × Int)), m ≠ [] →
      (m.map Prod.fst).Nodup →
      option_from_string_map option_from_string_int 0 option_from_string_int 0
        (option_to_string_map option_to_string_int option_to_string_int m) init =
        (m, none)) ∧
    (∀ (i : Int) (b : Bool) (w : HList [Int, Bool]),
      tuple_from_string ds_int_bool
        (tuple_to_string es_int_bool (HList.cons i (HList.cons b HList.nil))) w =
        (HList.cons i (HList.cons b HList.nil), none)) ∧
    (∀ (p : Nat) (l : List Int) (init : PrefixedList Nat Int), p < 2 ^ 64 → l ≠ [] →
      option_from_string_plist option_from_string_size option_from_string_int 0
        (option_to_string_plist option_to_string_size option_to_string_int ⟨p, l⟩) init =
        (⟨p, l⟩, none)) := by
  refine ⟨int_roundtrip, bool_roundtrip, fun p w hp => size_roundtrip p w hp,
    fun l init hl => vector_roundtrip option_from_string_int 0 option_to_string_int l hl
      (fun x _ => int_roundtrip x 0) init,
    fun m init hm hnd => map_roundtrip option_from_string_int 0 option_from_string_int 0
      option_to_string_int option_to_string_int m hm (fun p _ => int_roundtrip p.1 0)
      (fun p _ => int_roundtrip p.2 0) hnd init,
    tuple_int_bool_roundtrip,
    fun p l init hp hl => plist_roundtrip p l hp hl init⟩

/-- C1 witness: the amended round trip at concrete values of each shape. -/
theorem C1_round_trip_witness :
    option_from_string_size (option_to_string_size 7) 0 = (7, none) ∧
    option_from_string_vector option_from_string_int 0
      (option_to_string_vector option_to_string_int [5, -2]) [9] = ([5, -2], none) ∧
    option_from_string_map option_from_string_int 0 option_from_string_int 0
      (option_to_string_map option_to_string_int option_to_string_int [(1, 2), (3, 4)])
      [] = ([(1, 2), (3, 4)], none) ∧
    option_from_string_plist option_from_string_size option_from_string_int 0
      (option_to_string_plist option_to_string_size option_to_string_int ⟨9, [1]⟩)
      ⟨0, []⟩ = (⟨9, [1]⟩, none) :=
  ⟨C1_round_trip_amended.2.2.1 7 0 (by decide),
   C1_round_trip_amended.2.2.2.1 [5, -2] [9] (by decide),
   C1_round_trip_amended.2.2.2.2.1 [(1, 2), (3, 4)] [] (by decide) (by decide),
   C1_round_trip_amended.2.2.2.2.2.2 9 [1] ⟨0, []⟩ (by decide) (by decide)⟩

/-- C2 counterexample: an int option at value 5 after add("3") holds 8 (5 + 3), not
10 as the claim states. -/
theorem C2_int_add_counterexample :
    option_add_int 5 "3".toList = (8, .ok true) ∧ (8 : Int) ≠ 10 := by
  exact ⟨by decide, by decide⟩

/-- C2 (amended): for an int option holding value 5, add("3") sets the value to 8
(5 + 3) and returns true, and add("0") leaves the value unchanged at 5 and returns
false; in general int add parses the string as a signed delta, adds it to the
existing value in place, and returns whether the parsed delta was non-zero. -/
theorem C2_int_add_amended :
    option_add_int 5 "3".toList = (8, .ok true) ∧
    option_add_int 5 "0".toList = (5, .ok false) ∧
    (∀ (opt : Int) (s : Str) (v : Int), str_to_int s = .ok v →
      option_add_int opt s = (opt + v, .ok (decide (v ≠ 0)))) :=
  ⟨by decide, by decide, fun opt s v h => by simp only [option_add_int, h]⟩

/-- C2 witness: the general delta statement at a concrete input. -/
theorem C2_int_add_witness :
    str_to_int "7".toList = .ok 7 ∧
    option_add_int 2 "7".toList = (2 + 7, .ok (decide ((7 : Int) ≠ 0))) :=
  ⟨by decide, C2_int_add_amended.2.2 2 "7".toList 7 (by decide)⟩

/-- C3 counterexample: decoding 1|true|3 into the 2-field (int, bool) tuple fails
with the message "to many elements in tuple" (source typo), not "too many elements
in tuple" as the claim states. -/
theorem C3_tuple_arity_counterexample :
    tuple_from_string ds_int_bool "1|true|3".toList
      (HList.cons 0 (HList.cons false HList.nil)) =
      (HList.cons 0 (HList.cons false HList.nil),
        some (OptErr.runtime_error "to many elements in tuple".toList)) ∧
    "to many elements in tuple".toList ≠ "too many elements in tuple".toList :=
  ⟨rfl, by decide⟩

/-- C3 (amended): decoding a string into a tuple of declared arity N fails whenever
splitting on unescaped | yields a count different from N, distinguishing the two
cases: fewer than N elements fails with message "not enough elements in tuple" and
more than N elements fails with message "to many elements in tuple" (sic, the
source misspells "too"); with exactly N parts, each positional element decodes into
the corresponding field type, as in the (int, bool) instance. -/
theorem C3_tuple_arity_amended :
    (∀ (ts : List Type) (ds : FromStrings ts) (s : Str) (opt : HList ts),
      ((split '|' '\\' s).length < ts.length →
        tuple_from_string ds s opt =
          (opt, some (.runtime_error "not enough elements in tuple".toList))) ∧
      (ts.length < (split '|' '\\' s).length →
        tuple_from_string ds s opt =
          (opt, some (.runtime_error "to many elements in tuple".toList))) ∧
      ((split '|' '\\' s).length = ts.length →
        tuple_from_string ds s opt = tuple_from_elems ds (split '|' '\\' s) opt)) ∧
    (∀ (i : Int) (b : Bool) (w : HList [Int, Bool]),
      tuple_from_string ds_int_bool
        (tuple_to_string es_int_bool (HList.cons i (HList.cons b HList.nil))) w =
        (HList.cons i (HList.cons b HList.nil), none)) := by
  refine ⟨fun ts ds s opt => ⟨fun h => ?_, fun h => ?_, fun h => ?_⟩,
    tuple_int_bool_roundtrip⟩
  · simp only [tuple_from_string]
    rw [if_pos (by omega : (split '|' '\\' s).length ≠ ts.length), if_pos h]
  · simp only [tuple_from_string]
    rw [if_pos (by omega : (split '|' '\\' s).length ≠ ts.length),
      if_neg (by omega : ¬(split '|' '\\' s).length < ts.length)]
  · simp only [tuple_from_string]
    rw [if_neg (by omega : ¬(split '|' '\\' s).length ≠ ts.length)]

/-- C3 witness: decoding "1" into the 2-field (int, bool) tuple fails with the
not-enough message. -/
theorem C3_tuple_arity_witness :
    tuple_from_string ds_int_bool "1".toList
      (HList.cons 0 (HList.cons false HList.nil)) =
      (HList.cons 0 (HList.cons false HList.nil),
        some (OptErr.runtime_error "not enough elements in tuple".toList)) :=
  (C3_tuple_arity_amended.1 [Int, Bool] ds_int_bool "1".toList
    (HList.cons 0 (HList.cons false HList.nil))).1 (by decide)

/-- C4 counterexample: a failing list decode does not leave the destination
unchanged: decoding 1:x:3 into an int list holding [9] clears it and leaves the
partially decoded [1] together with the error. -/
theorem C4_partial_mutation_counterexample :
    (option_from_string_vector option_from_string_int 0 "1:x:3".toList [9]).1 = [1] ∧
    (option_from_string_vector option_from_string_int 0 "1:x:3".toList [9]).2.isSome
      = true ∧
    ([1] : List Int) ≠ [9] := by
  exact ⟨by decide, by decide, by decide⟩

/-- Helper lemma: a failing vector add leaves the destination unchanged. -/
theorem add_vector_error_frame {α : Type} (d : FromString α) (dflt : α)
    (opt : List α) (s : Str) (e : OptErr)
    (h : (option_add_vector d dflt opt s).2 = .error e) :
    (option_add_vector d dflt opt s).1 = opt := by
  rw [option_add_vector] at h ⊢
  cases hv : option_from_string_vector d dflt s [] with
  | mk vec o =>
    rw [hv] at h
    cases o with
    | none =>
      exact Except.noConfusion
        (h : (Except.ok !vec.isEmpty : Except OptErr Bool) = Except.error e)
    | some e2 => rfl

/-- C4 (amended): composite add operations (list, prefixed list) decode into a
temporary and leave the destination unchanged whenever they fail; composite decode,
however, overwrites the destination in place (its result never depends on the prior
value), so a decode that fails partway leaves the successfully decoded prefix, not
the prior value. -/
theorem C4_no_partial_mutation_amended :
    (∀ {α : Type} (d : FromString α) (dflt : α) (opt : List α) (s : Str) (e : OptErr),
      (option_add_vector d dflt opt s).2 = .error e →
      (option_add_vector d dflt opt s).1 = opt) ∧
    (∀ {P α : Type} (dT : FromString α) (dfT : α) (opt : PrefixedList P α) (s : Str)
      (e : OptErr),
      (option_add_plist dT dfT opt s).2 = .error e →
      (option_add_plist dT dfT opt s).1 = opt) ∧
    (∀ {α : Type} (d : FromString α) (dflt : α) (s : Str) (i1 i2 : List α),
      option_from_string_vector d dflt s i1 = option_from_string_vector d dflt s i2) ∧
    (∀ {κ ν : Type} [DecidableEq κ] (dK : FromString κ) (dfK : κ) (dV : FromString ν)
      (dfV : ν) (s : Str) (i1 i2 : List (κ × ν)),
      option_from_string_map dK dfK dV dfV s i1 =
        option_from_string_map dK dfK dV dfV s i2) := by
  refine ⟨?_, ?_, ?_, ?_⟩
  · intro α d dflt opt s e h
    exact add_vector_error_frame d dflt opt s e h
  · intro P α dT dfT opt s e h
    have h2 : (option_add_vector dT dfT opt.list s).2 = .error e := by
      rw [option_add_plist] at h
      cases hv : option_add_vector dT dfT opt.list s with
      | mk l r =>
        rw [hv] at h
        exact h
    have h1 := add_vector_error_frame dT dfT opt.list s e h2
    rw [option_add_plist]
    cases hv : option_add_vector dT dfT opt.list s with
    | mk l r =>
      have h1' : l = opt.list := by
        rw [hv] at h1
        exact h1
      subst h1'
      rfl
  · intro α d dflt s i1 i2
    rfl
  · intro κ ν inst dK dfK dV dfV s i1 i2
    rfl

/-- C4 witness: a failing list add leaves the destination unchanged at a concrete
input. -/
theorem C4_no_partial_mutation_witness :
    (option_add_vector option_from_string_int 0 [5] "x".toList).1 = [5] :=
  C4_no_partial_mutation_amended.1 option_from_string_int 0 [5] "x".toList
    (OptErr.runtime_error "is not a number".toList) (by decide)

/-- C5 counterexample: the PrefixedList decoder splits at the first colon even when
it is escaped: on the input 7\:8:9 the marker decoder receives 7\ (the part before
the escaped colon), not 7\:8 (the part before the first unescaped colon, computed
by the spec-modelled search), so the claim's "first unescaped colon" is false. -/
theorem C5_plist_decode_counterexample :
    (option_from_string_plist option_from_string_str option_from_string_str []
      "7\\:8:9".toList ⟨[], []⟩).1.pfx = "7\\".toList ∧
    findUnescaped ':' '\\' "7\\:8:9".toList = some ("7\\:8".toList, "9".toList) ∧
    "7\\".toList ≠ "7\\:8".toList := by
  exact ⟨by decide, by decide, by decide⟩

/-- C5 (amended): PrefixedList decode locates the first colon in the input,
regardless of escaping (a plain character search): the substring before it decodes
into the prefix marker via P's codec; if a colon was found and the marker decode
succeeded, the remainder after it decodes into the list member; if no colon is
present, the whole input decodes into the marker, the list member keeps its prior
value, and no error beyond any marker-decode error is raised. -/
theorem C5_plist_decode_amended :
    (∀ {P α : Type} (dP : FromString P) (dT : FromString α) (dfT : α) (s : Str)
      (opt : PrefixedList P α) (p : P) (e : Option OptErr),
      findChar ':' s = none → dP s opt.pfx = (p, e) →
      option_from_string_plist dP dT dfT s opt = (⟨p, opt.list⟩, e)) ∧
    (∀ {P α : Type} (dP : FromString P) (dT : FromString α) (dfT : α) (s : Str)
      (opt : PrefixedList P α) (b a : Str) (p : P),
      findChar ':' s = some (b, a) → dP b opt.pfx = (p, none) →
      option_from_string_plist dP dT dfT s opt =
        (⟨p, (option_from_string_vector dT dfT a opt.list).1⟩,
          (option_from_string_vector dT dfT a opt.list).2)) ∧
    (∀ {P α : Type} (dP : FromString P) (dT : FromString α) (dfT : α) (s : Str)
      (opt : PrefixedList P α) (b a : Str) (p : P) (e : OptErr),
      findChar ':' s = some (b, a) → dP b opt.pfx = (p, some e) →
      option_from_string_plist dP dT dfT s opt = (⟨p, opt.list⟩, some e)) := by
  refine ⟨?_, ?_, ?_⟩
  · intro P α dP dT dfT s opt p e h1 h2
    simp only [option_from_string_plist, h1, h2]
  · intro P α dP dT dfT s opt b a p h1 h2
    simp only [option_from_string_plist, h1, h2]
  · intro P α dP dT dfT s opt b a p e h1 h2
    simp only [option_from_string_plist, h1, h2]

/-- C5 witness: a colon-free input decodes entirely into the marker and leaves the
list member untouched. -/
theorem C5_plist_decode_witness :
    option_from_string_plist option_from_string_size option_from_string_int 0
      "7".toList ⟨0, [4]⟩ = (⟨7, [4]⟩, none) :=
  C5_plist_decode_amended.1 option_from_string_size option_from_string_int 0
    "7".toList ⟨0, [4]⟩ 7 none (by decide) (by decide)

/-- C6: map decode is destructive-replace: the result is computed from the empty
map whatever the destination held before (the clear), the spec-modelled insert
overwrites the entry of an existing key, and on the concrete input
1=10:2=20:1=30 the later occurrence of key 1 overwrites the earlier one, so the
decoded map holds the value from the last occurrence of each key. -/
theorem C6_map_destructive_replace :
    (∀ {κ ν : Type} [DecidableEq κ] (dK : FromString κ) (dfK : κ) (dV : FromString ν)
      (dfV : ν) (s : Str) (init : List (κ × ν)),
      option_from_string_map dK dfK dV dfV s init =
        map_from_elems dK dfK dV dfV (split ':' '\\' s) []) ∧
    (∀ {κ ν : Type} [DecidableEq κ] (m : List (κ × ν)) (k : κ) (v : ν),
      (mapInsert m k v).lookup k = some v) ∧
    (option_from_string_map option_from_string_int 0 option_from_string_int 0
      "1=10:2=20:1=30".toList [(7, 7)] = ([(1, 30), (2, 20)], none)) := by
  refine ⟨?_, ?_, by decide⟩
  · intro κ ν inst dK dfK dV dfV s init
    rfl
  · intro κ ν inst m k v
    induction m with
    | nil => simp [mapInsert, List.lookup]
    | cons p rest ih =>
      cases p with
      | mk pk pv =>
        by_cases h : pk = k
        · rw [mapInsert, if_pos h]
          simp [List.lookup]
        · rw [mapInsert, if_neg h]
          simp only [List.lookup]
          have hbeq : (k == pk) = false := by
            simp only [beq_eq_false_iff_ne]
            exact fun hh => h hh.symm
          rw [hbeq]
          exact ih

/-- C7: list add decodes the input into a temporary list, appends the temporary's
elements in order to the destination without clearing it, and returns true exactly
when the temporary list was non-empty; a failing decode of the temporary leaves the
destination unchanged and propagates the error. -/
theorem C7_vector_add :
    (∀ {α : Type} (d : FromString α) (dflt : α) (opt : List α) (s : Str) (v : List α),
      option_from_string_vector d dflt s [] = (v, none) →
      option_add_vector d dflt opt s = (opt ++ v, .ok (!v.isEmpty))) ∧
    (∀ {α : Type} (d : FromString α) (dflt : α) (opt : List α) (s : Str) (l : List α)
      (e : OptErr),
      option_from_string_vector d dflt s [] = (l, some e) →
      option_add_vector d dflt opt s = (opt, .error e)) ∧
    (∀ {α : Type} (v : List α), (!v.isEmpty) = true ↔ v ≠ []) := by
  refine ⟨?_, ?_, ?_⟩
  · intro α d dflt opt s v h
    rw [option_add_vector, h]
  · intro α d dflt opt s l e h
    rw [option_add_vector, h]
  · intro α v
    cases v <;> simp

/-- C7 witness: list add at a concrete input appends the decoded element and
returns true. -/
theorem C7_vector_add_witness :
    option_add_vector option_from_string_int 0 [9] "4".toList =
      ([9] ++ [4], .ok (!([4] : List Int).isEmpty)) :=
  C7_vector_add.1 option_from_string_int 0 [9] "4".toList [4] (by decide)

/-- C8: invoking add on a bool-typed option goes through the universal WorstMatch
catch-all and always fails with the unsupported-operation error, for every input
string, leaving the option unchanged. -/
theorem C8_bool_add_unsupported : ∀ (b : Bool) (s : Str),
    option_add_bool b s = (b, option_add_worst_match s) ∧
    option_add_worst_match s =
      .error (.runtime_error "no add operation supported for this option type".toList) :=
  fun _b _s => ⟨rfl, rfl⟩

/-- C9: PrefixedList add mutates only the list member: the marker after the call
equals the marker before it, and the list member and the returned value are exactly
those of the list's own add operation on the same string, whether it succeeds or
fails. -/
theorem C9_plist_add_frame : ∀ {P α : Type} (dT : FromString α) (dfT : α)
    (opt : PrefixedList P α) (s : Str),
    (option_add_plist dT dfT opt s).1.pfx = opt.pfx ∧
    (option_add_plist dT dfT opt s).1.list = (option_add_vector dT dfT opt.list s).1 ∧
    (option_add_plist dT dfT opt s).2 = (option_add_vector dT dfT opt.list s).2 := by
  intro P α dT dfT opt s
  rw [option_add_plist]
  cases hv : option_add_vector dT dfT opt.list s with
  | mk l r => exact ⟨rfl, rfl, rfl⟩

/-- C10: size decode feeds the input through the signed integer parser and assigns
the result to the unsigned 64-bit representation without any sign check: "-1" is
accepted without error and stores 2^64 - 1, and in general any parsed value v is
stored as v modulo 2^64. -/
theorem C10_size_decode_signed :
    option_from_string_size "-1".toList 7 = (2 ^ 64 - 1, none) ∧
    (∀ (s : Str) (w : Nat) (v : Int), str_to_int s = .ok v →
      option_from_string_size s w = ((v % (2 ^ 64 : Int)).toNat, none)) :=
  ⟨by decide, fun s w v h => by simp only [option_from_string_size, h]⟩

/-- C10 witness: the general statement at the concrete input "-2". -/
theorem C10_size_decode_witness :
    str_to_int "-2".toList = .ok (-2) ∧
    option_from_string_size "-2".toList 0 = (((-2 : Int) % (2 ^ 64 : Int)).toNat, none) :=
  ⟨by decide, C10_size_decode_signed.2 "-2".toList 0 (-2) (by decide)⟩

end KakOpt
